import Mathlib

/-!
Verification of the AtenaDocs PDF-merge orchestration client.

The definitions below are a shallow embedding of the TypeScript source:
* `handleFilesSelected` from `src/app/pdf/merge/page.tsx`,
* `handleMergeClick` (grant request, parallel upload, ordered merge trigger)
  from the `FileList` component,
* `apiPost`, `getUploadUrls`, `triggerPdfMerge` from `src/lib/actions.ts`.

Machine-level details that the claims depend on are modelled explicitly:
JavaScript truthiness for JSON values and for the `fields.key` lookup,
the fact that `Promise.all` starts every upload body synchronously, and
the order in which upload failures can surface (a `completionOrder`
parameter standing for wall-clock completion timing).
-/

namespace AtenaDocs

/-- A user-selected file as the page sees it: `File.name`, `File.size`
(bytes, an integer), `File.type` (MIME type string). -/
structure SelFile where
  name : String
  size : Nat
  mimeType : String
deriving Repr, DecidableEq

/-- The ceiling `MAX_TOTAL_SIZE_BYTES = 100 * 1024 * 1024` from `handleFilesSelected`. -/
def MAX_TOTAL_SIZE_BYTES : Nat := 100 * 1024 * 1024

/-- The running total `files.reduce((sum, file) => sum + file.size, 0)`. -/
def currentSizeOf (files : List SelFile) : Nat :=
  files.foldl (fun sum file => sum + file.size) 0

/-- The filter body of `handleFilesSelected`: walks the incoming selection,
keeping the running total `newFilesSize` of the files accepted so far in this
same selection.  A candidate is dropped when its MIME type is not
`application/pdf`, when its name equals the name of a file already in the
prior batch, or when `currentSize + newFilesSize + file.size` strictly
exceeds the ceiling; otherwise it is kept and its size added to the
accumulator. -/
def newFilesOf (files : List SelFile) : List SelFile → Nat → List SelFile
  | [], _ => []
  | f :: rest, newFilesSize =>
    if f.mimeType ≠ "application/pdf" then
      newFilesOf files rest newFilesSize
    else if files.any (fun existing => existing.name = f.name) then
      newFilesOf files rest newFilesSize
    else if currentSizeOf files + newFilesSize + f.size > MAX_TOTAL_SIZE_BYTES then
      newFilesOf files rest newFilesSize
    else
      f :: newFilesOf files rest (newFilesSize + f.size)

/-- The handler `handleFilesSelected`: append the accepted new files to the prior batch
(`setFiles((prevFiles) => [...prevFiles, ...newFiles])`). -/
def handleFilesSelected (files selectedFiles : List SelFile) : List SelFile :=
  files ++ newFilesOf files selectedFiles 0

/-- Sum of the sizes of a list of files (used to restate the accumulator). -/
def sizeSum (l : List SelFile) : Nat := (l.map SelFile.size).sum

-- Basic lemmas about the selection filter.

theorem newFilesOf_sublist (files : List SelFile) :
    ∀ (sel : List SelFile) (acc : Nat), (newFilesOf files sel acc).Sublist sel := by
  intro sel
  induction sel with
  | nil => intro acc; simp [newFilesOf]
  | cons f rest ih =>
    intro acc
    simp only [newFilesOf]
    split
    · exact (ih acc).cons f
    · split
      · exact (ih acc).cons f
      · split
        · exact (ih acc).cons f
        · exact (ih (acc + f.size)).cons₂ f

theorem mem_newFilesOf (files : List SelFile) :
    ∀ (sel : List SelFile) (acc : Nat) (f : SelFile),
      f ∈ newFilesOf files sel acc →
      ∀ existing ∈ files, existing.name ≠ f.name := by
  intro sel
  induction sel with
  | nil => intro acc f h; simp [newFilesOf] at h
  | cons g rest ih =>
    intro acc f h
    simp only [newFilesOf] at h
    split at h
    · exact ih acc f h
    · split at h
      · exact ih acc f h
      · split at h
        · exact ih acc f h
        · rcases List.mem_cons.mp h with hfg | hmem
          · subst hfg
            intro e he
            rename_i hnotdup _
            intro heq
            exact hnotdup (List.any_eq_true.mpr ⟨e, he, by simp [heq]⟩)
          · exact ih (acc + g.size) f hmem

/-- The accumulator of the selection filter only ever tracks the total size
of the files accepted so far; processing `pre ++ post` is processing `pre`,
then `post` with the accumulator advanced by the accepted sizes. -/
theorem newFilesOf_append (files : List SelFile) :
    ∀ (pre post : List SelFile) (acc : Nat),
      newFilesOf files (pre ++ post) acc =
        newFilesOf files pre acc ++
          newFilesOf files post (acc + sizeSum (newFilesOf files pre acc)) := by
  intro pre
  induction pre with
  | nil => intro post acc; simp [newFilesOf, sizeSum]
  | cons f rest ih =>
    intro post acc
    simp only [List.cons_append, newFilesOf]
    split
    · exact ih post acc
    · split
      · exact ih post acc
      · split
        · exact ih post acc
        · simp only [List.append_eq]
          rw [ih post (acc + f.size)]
          have harith : acc + f.size + sizeSum (newFilesOf files rest (acc + f.size)) =
              acc + sizeSum (f :: newFilesOf files rest (acc + f.size)) := by
            simp only [sizeSum, List.map_cons, List.sum_cons]
            omega
          rw [harith, List.cons_append]

/-! ## The action layer (`src/lib/actions.ts`) -/

/-- A parsed JSON value (the result of `JSON.parse`). -/
inductive Json where
  | null
  | bool (b : Bool)
  | num (n : Int)
  | str (s : String)
  | arr (elems : List Json)
  | obj (fields : List (String × Json))
deriving Repr

/-- JavaScript truthiness of a JSON value: `null`, `false`, `0` and `""`
are falsy; every array and every object (including `{}`) is truthy. -/
def jsTruthy : Json → Bool
  | .null => false
  | .bool b => b
  | .num n => n ≠ 0
  | .str s => s ≠ ""
  | .arr _ => true
  | .obj _ => true

/-- Property access `j?.k` on a parsed JSON value: defined only when the
value is an object that carries the field. -/
def objLookup (j : Json) (k : String) : Option Json :=
  match j with
  | .obj fields => fields.lookup k
  | _ => none

/-- The environment's view of one HTTP response, as `apiPost` consumes it:
`response.ok`, `response.statusText`, the awaited `response.text()`, and
the result of `JSON.parse` on that text (`none` when parsing throws). -/
structure HttpResponse where
  ok : Bool
  statusText : String
  bodyText : String
  bodyJson : Option Json

/-- The value `responseJson` as computed by `apiPost`: the parse is attempted only
when `responseText` is non-empty, and a parse failure leaves it unset. -/
def responseJsonOf (r : HttpResponse) : Option Json :=
  if r.bodyText = "" then none else r.bodyJson

/-- The error taxonomy of `apiPost`; the service variant carries the pieces
the code interpolates into its message (`responseJson?.error`,
`responseText`, `response.statusText`). -/
inductive ApiError where
  | config
  | service (errField : Option Json) (bodyText statusText : String)
  | protocol
deriving Repr

/-- The helper `apiPost(path, body)` from `src/lib/actions.ts`: throws a configuration
error before any `fetch` when the API URL is unset; otherwise issues one
POST to `API_URL + path` and then
* throws a backend error if `response.ok` is false,
* throws a protocol error if `responseJson` is unset or falsy,
* returns `responseJson` otherwise.
The second component lists the URLs actually fetched. -/
def apiPost (apiUrl : Option String) (path : String) (resp : HttpResponse) :
    Except ApiError Json × List String :=
  match apiUrl with
  | none => (.error .config, [])
  | some base =>
    let requests := [base ++ path]
    let responseJson := responseJsonOf resp
    if resp.ok = false then
      (.error (.service (responseJson.bind (fun j => objLookup j "error"))
        resp.bodyText resp.statusText), requests)
    else
      match responseJson with
      | none => (.error .protocol, requests)
      | some j =>
        if jsTruthy j then (.ok j, requests) else (.error .protocol, requests)

/-- The action `getUploadUrls(files)`: POSTs the file names to `/upload` and returns
`result.uploads` — the raw field access, which is `undefined` (here `none`)
when the parsed object has no `uploads` field. -/
def getUploadUrls (apiUrl : Option String) (fileNames : List String)
    (resp : HttpResponse) : Except ApiError (Option Json) × List String :=
  match apiPost apiUrl "/upload" resp with
  | (.error e, reqs) => (.error e, reqs)
  | (.ok j, reqs) => (.ok (objLookup j "uploads"), reqs)

/-- The action `triggerPdfMerge(fileKeys)`: POSTs the ordered keys to `/merge` and
returns the parsed response object. -/
def triggerPdfMerge (apiUrl : Option String) (fileKeys : List String)
    (resp : HttpResponse) : Except ApiError Json × List String :=
  apiPost apiUrl "/merge" resp

/-! ## The `FileList` component (merge orchestration) -/

/-- The `post_details` of one presigned upload: the destination URL plus the
required form fields (`fields.key` being the storage key). -/
structure PostDetails where
  url : String
  fields : List (String × String)
deriving Repr, DecidableEq

/-- One entry of the `/upload` response: a grant for the named file. -/
structure PresignedUploadDetails where
  originalFileName : String
  post_details : PostDetails
deriving Repr, DecidableEq

/-- The lookup performed by the merge-trigger step for one file name:
`uploadDetails.find(d => d.originalFileName === file.name)` followed by the
truthiness test `!detail || !detail.post_details.fields.key` (an absent
`key` field and an empty-string `key` are both falsy). -/
def keyFor (uploadDetails : List PresignedUploadDetails) (name : String) :
    Option String :=
  match uploadDetails.find? (fun d => d.originalFileName = name) with
  | none => none
  | some d =>
    match d.post_details.fields.lookup "key" with
    | none => none
    | some k => if k = "" then none else some k

/-- The `orderedKeys` computation of `handleMergeClick`: map over the
batch in its current display order, look up each file's grant key, and
throw at the first file whose grant or key is missing. -/
def orderedKeys : List SelFile → List PresignedUploadDetails →
    Except String (List String)
  | [], _ => .ok []
  | f :: rest, uploadDetails =>
    match keyFor uploadDetails f.name with
    | none => .error ("Detalhes do envio ausentes para " ++ f.name ++
        ". Não é possível continuar com a junção.")
    | some k =>
      match orderedKeys rest uploadDetails with
      | .error e => .error e
      | .ok ks => .ok (k :: ks)

/-- The terminal result of one XMLHttpRequest upload: either `onload`
fired with the given `xhr.status` / `xhr.statusText`, or `onerror` fired. -/
inductive UploadOutcome where
  | loaded (status : Nat) (statusText : String)
  | netError
deriving Repr, DecidableEq

/-- One `xhr.upload.onprogress` event. -/
structure ProgressEvent where
  lengthComputable : Bool
  loaded : ℚ
  total : ℚ
deriving Repr, DecidableEq

/-- The percentage `(event.loaded / event.total) * 100`. -/
def percentOf (e : ProgressEvent) : ℚ := e.loaded / e.total * 100

/-- The sequence of values written into `uploadProgress[file.name]` by one
upload: one write per length-computable progress event, and a final write
of `100` from `onload` when the status is 2xx. -/
def fileWrites (events : List ProgressEvent) (outcome : UploadOutcome) :
    List ℚ :=
  let ps := (events.filter (fun e => e.lengthComputable)).map percentOf
  match outcome with
  | .loaded s _ => if 200 ≤ s ∧ s < 300 then ps ++ [100] else ps
  | .netError => ps

/-- The rejection produced by one upload, if any: `onerror` rejects with
the network-error message; `onload` with a non-2xx status rejects with a
message naming the file. -/
def uploadFailMsg (name : String) (o : UploadOutcome) : Option String :=
  match o with
  | .netError => some "Erro de rede durante o envio."
  | .loaded s st =>
    if 200 ≤ s ∧ s < 300 then none
    else some ("Falha no envio de " ++ name ++ ": " ++ st)

/-- The synchronous part of the upload fan-out: each grant's async body
runs `files.find(f => f.name === details.originalFileName)` immediately and
throws when no file matches; these throws reject before any network
completion, so the first such grant (in grant order) decides the error. -/
def missingFileErr (files : List SelFile)
    (uploadDetails : List PresignedUploadDetails) : Option String :=
  (uploadDetails.find? (fun d =>
      !files.any (fun f => f.name = d.originalFileName))).map
    (fun d => "Não foi possível encontrar os dados do arquivo para " ++
      d.originalFileName ++ ".")

/-- The names the grants were issued for. -/
def grantNames (uploadDetails : List PresignedUploadDetails) : List String :=
  uploadDetails.map PresignedUploadDetails.originalFileName

/-- Wall-clock completion order of the uploads: an arbitrary environment
ordering `co`, completed to cover every granted name. -/
def completionSeq (uploadDetails : List PresignedUploadDetails)
    (co : List String) : List String :=
  co.filter (fun n => n ∈ grantNames uploadDetails) ++
    (grantNames uploadDetails).filter (fun n => n ∉ co)

/-- The first upload rejection to occur, in completion order (`Promise.all`
settles on the earliest rejection). -/
def firstUploadErr (uploadDetails : List PresignedUploadDetails)
    (beh : String → UploadOutcome) (co : List String) : Option String :=
  ((completionSeq uploadDetails co).filterMap
    (fun n => uploadFailMsg n (beh n))).head?

/-- Phase 2 of `handleMergeClick` (`await Promise.all(...)`): rejects with
the first missing-file throw if any grant has no matching batch file, else
with the first upload failure in completion order, else resolves. -/
def uploadPhase (files : List SelFile)
    (uploadDetails : List PresignedUploadDetails)
    (beh : String → UploadOutcome) (co : List String) : Except String Unit :=
  match missingFileErr files uploadDetails with
  | some m => .error m
  | none =>
    match firstUploadErr uploadDetails beh co with
    | some m => .error m
    | none => .ok ()

/-- Does `hay` start with `needle`? -/
def charsMatch : List Char → List Char → Bool
  | [], _ => true
  | _ :: _, [] => false
  | a :: as, b :: bs => a = b && charsMatch as bs

/-- Does `needle` occur contiguously anywhere in `hay`?  This is
JavaScript `hay.includes(needle)`. -/
def hasSub (needle : List Char) : List Char → Bool
  | [] => charsMatch needle []
  | c :: rest => charsMatch needle (c :: rest) || hasSub needle rest

/-- ASCII lowercasing of one character (`toLowerCase` on the basic latin
range, which is all the compared phrase uses). -/
def lowerChar (c : Char) : Char :=
  if 65 ≤ c.toNat ∧ c.toNat ≤ 90 then Char.ofNat (c.toNat + 32) else c

/-- The lowercased form `m.toLowerCase()` as a character list. -/
def lowerStr (m : String) : List Char := m.data.map lowerChar

/-- The CORS hint the catch block substitutes for network errors. -/
def corsHintMsg : String :=
  "Ocorreu um erro de rede durante o envio. Isso geralmente é causado por uma configuração de CORS ausente ou incorreta no bucket S3. Garanta que o bucket esteja configurado para aceitar solicitações POST do domínio do seu aplicativo."

/-- The catch block of `handleMergeClick`: the toast description is the
error message, unless its lowercase form contains \x22network error\x22, in
which case the CORS hint is shown instead. -/
def catchDescription (m : String) : String :=
  if hasSub "network error".data (lowerStr m) then corsHintMsg else m

/-- A network operation issued by the workflow, in issue order. -/
inductive NetOp where
  | grantRequest (names : List String)
  | uploadSend (url : String) (fileName : String)
  | mergeRequest (keys : List String)
deriving Repr, DecidableEq

/-- The user-visible terminal outcome of one click of the merge button. -/
inductive ClickOutcome where
  | validationError (title description : String)
  | failure (description : String)
  | success (downloadUrl : String)
deriving Repr, DecidableEq

/-- Everything observable about one run of `handleMergeClick`: the toast
outcome, the network operations issued, the batch afterwards, the loading
flags afterwards, and the value of `uploadProgress` at the instant the
upload phase began (`none` when that phase was never entered). -/
structure ClickResult where
  outcome : ClickOutcome
  netOps : List NetOp
  finalFiles : List SelFile
  isPreparing : Bool
  isUploading : Bool
  isMerging : Bool
  progressAtUploadStart : Option (List (String × ℚ))
deriving Repr, DecidableEq

/-- The `xhr.send` operations issued: every grant whose matching file is
found sends, because `Promise.all` starts every async body immediately. -/
def uploadSends (files : List SelFile)
    (uploadDetails : List PresignedUploadDetails) : List NetOp :=
  uploadDetails.filterMap (fun d =>
    (files.find? (fun f => f.name = d.originalFileName)).map
      (fun f => NetOp.uploadSend d.post_details.url f.name))

/-- The merge-service response, as `handleMergeClick` consumes it. -/
structure MergeTriggerResult where
  message : String
  downloadUrl : String
deriving Repr, DecidableEq

/-- The handler `handleMergeClick` from the `FileList` component.  Environment inputs:
the result of `getUploadUrls` (`grantsResp`), each file's upload outcome
(`beh`), the wall-clock completion order of the uploads (`co`), and the
result of `triggerPdfMerge` (`mergeResp`); the per-file progress writes
are `fileWrites` above.
Fewer than two files short-circuits with a validation toast before any
network activity; afterwards the three phases run in order, any failure
falls to the catch block, and the `finally` block clears every loading
flag on every path.  A successful merge hands the download URL to
`onMergeSuccess`, which clears the batch. -/
def handleMergeClick (files : List SelFile)
    (grantsResp : Except String (List PresignedUploadDetails))
    (beh : String → UploadOutcome) (co : List String)
    (mergeResp : Except String MergeTriggerResult) : ClickResult :=
  if files.length < 2 then
    { outcome := .validationError "Arquivos insuficientes"
        "Adicione pelo menos dois arquivos para juntar."
      netOps := []
      finalFiles := files
      isPreparing := false, isUploading := false, isMerging := false
      progressAtUploadStart := none }
  else
    match grantsResp with
    | .error e =>
      { outcome := .failure (catchDescription e)
        netOps := [.grantRequest (files.map SelFile.name)]
        finalFiles := files
        isPreparing := false, isUploading := false, isMerging := false
        progressAtUploadStart := none }
    | .ok uploadDetails =>
      let base := NetOp.grantRequest (files.map SelFile.name) ::
        uploadSends files uploadDetails
      match uploadPhase files uploadDetails beh co with
      | .error m =>
        { outcome := .failure (catchDescription m)
          netOps := base
          finalFiles := files
          isPreparing := false, isUploading := false, isMerging := false
          progressAtUploadStart := some [] }
      | .ok _ =>
        match orderedKeys files uploadDetails with
        | .error m =>
          { outcome := .failure (catchDescription m)
            netOps := base
            finalFiles := files
            isPreparing := false, isUploading := false, isMerging := false
            progressAtUploadStart := some [] }
        | .ok keys =>
          match mergeResp with
          | .error m =>
            { outcome := .failure (catchDescription m)
              netOps := base ++ [.mergeRequest keys]
              finalFiles := files
              isPreparing := false, isUploading := false, isMerging := false
              progressAtUploadStart := some [] }
          | .ok r =>
            { outcome := .success r.downloadUrl
              netOps := base ++ [.mergeRequest keys]
              finalFiles := []
              isPreparing := false, isUploading := false, isMerging := false
              progressAtUploadStart := some [] }

/-- Selects the key list of a merge-request operation. -/
def mergePick : NetOp → Option (List String)
  | .mergeRequest ks => some ks
  | _ => none

/-- The key list of the merge request issued by a run, if one was issued. -/
def mergeKeysOf (r : ClickResult) : Option (List String) :=
  (r.netOps.filterMap mergePick).head?

/-! ## Claims -/

/-- C10: every call to `handleFilesSelected` leaves the prior batch as an
unchanged prefix of the result, in its original order, and appends exactly
the accepted new files, in selection order (a subsequence of the incoming
selection).  Adding files never removes, reorders, or modifies existing
entries. -/
theorem c10_frame_batch_preserved (files selectedFiles : List SelFile) :
    handleFilesSelected files selectedFiles =
      files ++ newFilesOf files selectedFiles 0 ∧
    (newFilesOf files selectedFiles 0).Sublist selectedFiles :=
  ⟨rfl, newFilesOf_sublist files selectedFiles 0⟩

/-- C2 counterexample: the duplicate check compares each candidate only
against the batch as it was before the call, so a single selection that
contains the same (valid, small) PDF name twice is accepted twice, and the
resulting batch has two entries named `a.pdf`. -/
theorem c2_counterexample :
    handleFilesSelected []
        [⟨"a.pdf", 5, "application/pdf"⟩, ⟨"a.pdf", 5, "application/pdf"⟩] =
      [⟨"a.pdf", 5, "application/pdf"⟩, ⟨"a.pdf", 5, "application/pdf"⟩] ∧
    ¬ ((handleFilesSelected []
        [⟨"a.pdf", 5, "application/pdf"⟩, ⟨"a.pdf", 5, "application/pdf"⟩]).map
          SelFile.name).Nodup := by
  constructor
  · decide
  · decide

/-- C2 (amended): after `handleFilesSelected`, the batch contains no two
entries with the same name, provided the prior batch had pairwise-distinct
names and the incoming selection itself contains no two files with the same
name; a candidate duplicating a prior batch entry is always rejected, but
the check does not compare candidates of the same selection against each
other. -/
theorem c2_amended_nodup (files sel : List SelFile)
    (hfiles : (files.map SelFile.name).Nodup)
    (hsel : (sel.map SelFile.name).Nodup) :
    ((handleFilesSelected files sel).map SelFile.name).Nodup := by
  unfold handleFilesSelected
  rw [List.map_append]
  refine List.Nodup.append hfiles (hsel.sublist ?_) ?_
  · exact (newFilesOf_sublist files sel 0).map SelFile.name
  · intro a ha hb
    obtain ⟨e, he, rfl⟩ := List.mem_map.mp ha
    obtain ⟨f, hf, hname⟩ := List.mem_map.mp hb
    exact mem_newFilesOf files sel 0 f hf e he hname.symm

/-- C2 witness: the amended theorem at a concrete input. -/
theorem c2_amended_nodup_witness :
    (([⟨"x.pdf", 1, "application/pdf"⟩] : List SelFile).map SelFile.name).Nodup ∧
    (([⟨"y.pdf", 2, "application/pdf"⟩] : List SelFile).map SelFile.name).Nodup ∧
    ((handleFilesSelected [⟨"x.pdf", 1, "application/pdf"⟩]
        [⟨"y.pdf", 2, "application/pdf"⟩]).map SelFile.name).Nodup :=
  ⟨by decide, by decide,
    c2_amended_nodup [⟨"x.pdf", 1, "application/pdf"⟩]
      [⟨"y.pdf", 2, "application/pdf"⟩] (by decide) (by decide)⟩

/-- One accept/reject step of the selection filter, for a PDF candidate
whose name is not already in the batch: it is accepted exactly when the
prior batch size plus the accumulator plus its own size does not exceed the
ceiling, and either way the rest of the selection is still processed. -/
theorem newFilesOf_cons_pdf (files : List SelFile) (f : SelFile)
    (rest : List SelFile) (acc : Nat)
    (hpdf : f.mimeType = "application/pdf")
    (hdup : ∀ existing ∈ files, existing.name ≠ f.name) :
    newFilesOf files (f :: rest) acc =
      if currentSizeOf files + acc + f.size ≤ MAX_TOTAL_SIZE_BYTES then
        f :: newFilesOf files rest (acc + f.size)
      else
        newFilesOf files rest acc := by
  simp only [newFilesOf]
  rw [if_neg (by simp [hpdf])]
  have h2 : ¬ (files.any fun existing => existing.name = f.name) = true := by
    simp only [List.any_eq_true, decide_eq_true_eq, not_exists]
    push_neg
    exact hdup
  rw [if_neg h2]
  by_cases h3 : currentSizeOf files + acc + f.size > MAX_TOTAL_SIZE_BYTES
  · rw [if_pos h3, if_neg (by omega)]
  · rw [if_neg h3, if_pos (by omega)]

/-- C4: when a selection is added, a valid (PDF, non-duplicate) candidate
is rejected for size exactly when the prior batch total plus the sizes of
the candidates accepted earlier in the same selection plus its own size
strictly exceeds `MAX_TOTAL_SIZE_BYTES`; the boundary condition is `≤`
(a total of exactly the ceiling is accepted, one byte over is rejected),
and in either case the remaining candidates are still processed, so later
candidates that fit are still added after a rejection. -/
theorem c4_size_ceiling_boundary (files pre post : List SelFile) (f : SelFile)
    (hpdf : f.mimeType = "application/pdf")
    (hdup : ∀ existing ∈ files, existing.name ≠ f.name) :
    newFilesOf files (pre ++ f :: post) 0 =
      if currentSizeOf files + sizeSum (newFilesOf files pre 0) + f.size ≤
          MAX_TOTAL_SIZE_BYTES then
        newFilesOf files pre 0 ++
          f :: newFilesOf files post (sizeSum (newFilesOf files pre 0) + f.size)
      else
        newFilesOf files pre 0 ++
          newFilesOf files post (sizeSum (newFilesOf files pre 0)) := by
  rw [newFilesOf_append files pre (f :: post) 0, Nat.zero_add]
  rw [newFilesOf_cons_pdf files f post (sizeSum (newFilesOf files pre 0)) hpdf hdup]
  by_cases hle : currentSizeOf files + sizeSum (newFilesOf files pre 0) + f.size ≤
      MAX_TOTAL_SIZE_BYTES
  · rw [if_pos hle, if_pos hle]
  · rw [if_neg hle, if_neg hle]

/-- C4 witness: the boundary at a concrete input.  The first candidate
brings the total to exactly the 100 MB ceiling and is accepted; the second
candidate (1 byte) would exceed it and is rejected. -/
theorem c4_size_ceiling_boundary_witness :
    (⟨"big.pdf", 104857600, "application/pdf"⟩ : SelFile).mimeType =
      "application/pdf" ∧
    (∀ existing ∈ ([] : List SelFile),
      existing.name ≠ (⟨"big.pdf", 104857600, "application/pdf"⟩ : SelFile).name) ∧
    newFilesOf [] ([] ++ ⟨"big.pdf", 104857600, "application/pdf"⟩ ::
        [⟨"one.pdf", 1, "application/pdf"⟩]) 0 =
      if currentSizeOf [] + sizeSum (newFilesOf [] [] 0) +
          (⟨"big.pdf", 104857600, "application/pdf"⟩ : SelFile).size ≤
          MAX_TOTAL_SIZE_BYTES then
        newFilesOf [] [] 0 ++
          ⟨"big.pdf", 104857600, "application/pdf"⟩ ::
            newFilesOf [] [⟨"one.pdf", 1, "application/pdf"⟩]
              (sizeSum (newFilesOf [] [] 0) +
                (⟨"big.pdf", 104857600, "application/pdf"⟩ : SelFile).size)
      else
        newFilesOf [] [] 0 ++
          newFilesOf [] [⟨"one.pdf", 1, "application/pdf"⟩]
            (sizeSum (newFilesOf [] [] 0)) :=
  ⟨rfl, by decide,
    c4_size_ceiling_boundary [] [] [⟨"one.pdf", 1, "application/pdf"⟩]
      ⟨"big.pdf", 104857600, "application/pdf"⟩ rfl (by decide)⟩

/-- C6: when the backend API URL environment configuration is absent, both
`getUploadUrls` and `triggerPdfMerge` fail immediately with the
configuration error, and the list of fetches issued is empty — whatever
the request and whatever response the network could have given. -/
theorem c6_missing_config_no_fetch (fileNames fileKeys : List String)
    (respU respM : HttpResponse) :
    getUploadUrls none fileNames respU = (.error .config, []) ∧
    triggerPdfMerge none fileKeys respM = (.error .config, []) :=
  ⟨rfl, rfl⟩

/-- C7: with fewer than two files in the batch, clicking merge produces
the validation toast and returns before any network operation: no grant
request, no upload, no merge call, batch unchanged, all flags clear. -/
theorem c7_min_batch_validation (files : List SelFile)
    (grantsResp : Except String (List PresignedUploadDetails))
    (beh : String → UploadOutcome) (co : List String)
    (mergeResp : Except String MergeTriggerResult)
    (hlen : files.length < 2) :
    handleMergeClick files grantsResp beh co mergeResp =
      { outcome := .validationError "Arquivos insuficientes"
          "Adicione pelo menos dois arquivos para juntar."
        netOps := []
        finalFiles := files
        isPreparing := false, isUploading := false, isMerging := false
        progressAtUploadStart := none } := by
  unfold handleMergeClick
  rw [if_pos hlen]

/-- C7 witness: a one-file batch at concrete environment inputs. -/
theorem c7_min_batch_validation_witness :
    ([⟨"a.pdf", 1, "application/pdf"⟩] : List SelFile).length < 2 ∧
    handleMergeClick [⟨"a.pdf", 1, "application/pdf"⟩] (.ok [])
        (fun _ => .loaded 204 "No Content") [] (.error "unused") =
      { outcome := .validationError "Arquivos insuficientes"
          "Adicione pelo menos dois arquivos para juntar."
        netOps := []
        finalFiles := [⟨"a.pdf", 1, "application/pdf"⟩]
        isPreparing := false, isUploading := false, isMerging := false
        progressAtUploadStart := none } :=
  ⟨by decide,
    c7_min_batch_validation [⟨"a.pdf", 1, "application/pdf"⟩] (.ok [])
      (fun _ => .loaded 204 "No Content") [] (.error "unused") (by decide)⟩

/-- C9 counterexample: a successful status whose body is the valid JSON
object `\x7b\x7d` — truthy, but with no `uploads` field — makes
`getUploadUrls` return `ok` with an undefined (`none`) uploads value
instead of failing with any error. -/
theorem c9_counterexample :
    (getUploadUrls (some "https://api.example") ["a.pdf"]
        { ok := true, statusText := "OK", bodyText := "{}",
          bodyJson := some (.obj []) }).1 = .ok none ∧
    ∀ e : ApiError,
      (getUploadUrls (some "https://api.example") ["a.pdf"]
          { ok := true, statusText := "OK", bodyText := "{}",
            bodyJson := some (.obj []) }).1 ≠ .error e :=
  ⟨rfl, fun _ h => nomatch h⟩

/-- C9 (amended): on a successful HTTP status, `getUploadUrls` fails with
the protocol error exactly in the cases where `responseJson` ends up unset
or falsy — empty body, invalid JSON, or a falsy JSON value; a truthy JSON
body never errors: its `uploads` field is extracted and simply comes back
undefined (`none`) when absent, leaving the malformed case to surface in
the caller. -/
theorem c9_amended_protocol (base : String) (fileNames : List String)
    (resp : HttpResponse) (hok : resp.ok = true) :
    ((responseJsonOf resp = none ∨
        (∃ j, responseJsonOf resp = some j ∧ jsTruthy j = false)) →
      (getUploadUrls (some base) fileNames resp).1 = .error .protocol) ∧
    (∀ j, responseJsonOf resp = some j → jsTruthy j = true →
      (getUploadUrls (some base) fileNames resp).1 =
        .ok (objLookup j "uploads")) := by
  constructor
  · intro h
    unfold getUploadUrls apiPost
    rcases h with hnone | ⟨j, hj, hfalsy⟩
    · simp [hok, hnone]
    · simp [hok, hj, hfalsy]
  · intro j hj htruthy
    unfold getUploadUrls apiPost
    simp [hok, hj, htruthy]

/-- C9 witness: the amended theorem at a concrete input (a successful
status whose body text does not parse as JSON yields the protocol error).
-/
theorem c9_amended_protocol_witness :
    ({ ok := true, statusText := "OK", bodyText := "not json",
        bodyJson := none : HttpResponse }).ok = true ∧
    (getUploadUrls (some "https://api.example") ["a.pdf"]
        { ok := true, statusText := "OK", bodyText := "not json",
          bodyJson := none }).1 = .error .protocol :=
  ⟨rfl,
    (c9_amended_protocol "https://api.example" ["a.pdf"]
        { ok := true, statusText := "OK", bodyText := "not json",
          bodyJson := none } rfl).1
      (Or.inl (by simp [responseJsonOf]))⟩

-- Lemmas about the upload phase and the ordered key list.

theorem orderedKeys_forall₂ :
    ∀ (files : List SelFile) (ds : List PresignedUploadDetails)
      (ks : List String), orderedKeys files ds = .ok ks →
      List.Forall₂ (fun (f : SelFile) (k : String) =>
        keyFor ds f.name = some k) files ks := by
  intro files
  induction files with
  | nil =>
    intro ds ks h
    simp only [orderedKeys] at h
    cases h
    exact .nil
  | cons f rest ih =>
    intro ds ks h
    simp only [orderedKeys] at h
    cases hk : keyFor ds f.name with
    | none => rw [hk] at h; cases h
    | some k =>
      rw [hk] at h
      cases hr : orderedKeys rest ds with
      | error e => rw [hr] at h; cases h
      | ok ks' =>
        rw [hr] at h
        cases h
        exact .cons hk (ih ds ks' hr)

theorem orderedKeys_error_of_missing :
    ∀ (files : List SelFile) (ds : List PresignedUploadDetails),
      (∃ f ∈ files, keyFor ds f.name = none) →
      ∃ m, orderedKeys files ds = .error m := by
  intro files
  induction files with
  | nil => intro ds h; simp at h
  | cons f rest ih =>
    intro ds h
    simp only [orderedKeys]
    cases hk : keyFor ds f.name with
    | none => exact ⟨_, rfl⟩
    | some k =>
      rcases h with ⟨g, hg, hgnone⟩
      rcases List.mem_cons.mp hg with rfl | hgrest
      · rw [hk] at hgnone; cases hgnone
      · obtain ⟨m, hm⟩ := ih ds ⟨g, hgrest, hgnone⟩
        rw [hm]
        exact ⟨m, rfl⟩

theorem mem_completionSeq (ds : List PresignedUploadDetails)
    (co : List String) (n : String) :
    n ∈ completionSeq ds co ↔ n ∈ grantNames ds := by
  unfold completionSeq
  simp only [List.mem_append, List.mem_filter, decide_eq_true_eq]
  constructor
  · rintro (⟨_, h⟩ | ⟨h, _⟩) <;> exact h
  · intro h
    by_cases hco : n ∈ co
    · exact Or.inl ⟨hco, h⟩
    · exact Or.inr ⟨h, by simpa using hco⟩

theorem firstUploadErr_none_iff (ds : List PresignedUploadDetails)
    (beh : String → UploadOutcome) (co : List String) :
    firstUploadErr ds beh co = none ↔
      ∀ n ∈ grantNames ds, uploadFailMsg n (beh n) = none := by
  unfold firstUploadErr
  rw [List.head?_eq_none_iff, List.filterMap_eq_nil_iff]
  constructor
  · intro h n hn
    exact h n ((mem_completionSeq ds co n).mpr hn)
  · intro h n hn
    exact h n ((mem_completionSeq ds co n).mp hn)

/-- Whether the upload phase resolves does not depend on the wall-clock
completion order of the uploads (only the surfaced message can). -/
theorem uploadPhase_ok_co_independent (files : List SelFile)
    (ds : List PresignedUploadDetails) (beh : String → UploadOutcome)
    (co co' : List String) :
    uploadPhase files ds beh co = .ok () ↔
      uploadPhase files ds beh co' = .ok () := by
  unfold uploadPhase
  cases missingFileErr files ds with
  | some m => simp
  | none =>
    cases h : firstUploadErr ds beh co with
    | some m =>
      cases h' : firstUploadErr ds beh co' with
      | some m' => simp
      | none =>
        have hnone : firstUploadErr ds beh co = none :=
          (firstUploadErr_none_iff ds beh co).mpr
            ((firstUploadErr_none_iff ds beh co').mp h')
        rw [h] at hnone
        cases hnone
    | none =>
      rw [(firstUploadErr_none_iff ds beh co').mpr
        ((firstUploadErr_none_iff ds beh co).mp h)]

theorem uploadSends_no_merge (files : List SelFile)
    (ds : List PresignedUploadDetails) :
    (uploadSends files ds).filterMap mergePick = [] := by
  rw [List.filterMap_eq_nil_iff]
  intro a ha
  unfold uploadSends at ha
  rw [List.mem_filterMap] at ha
  obtain ⟨d, _, hd⟩ := ha
  cases hf : (files.find? fun f => f.name = d.originalFileName) with
  | none => rw [hf] at hd; cases hd
  | some f =>
    rw [hf] at hd
    cases hd
    rfl

/-- No merge request is recorded among a grant request and the upload
sends. -/
theorem mergeKeys_of_base (files : List SelFile)
    (ds : List PresignedUploadDetails) (ns : List String) :
    ((NetOp.grantRequest ns :: uploadSends files ds).filterMap
      mergePick).head? = none := by
  rw [List.filterMap_cons_none (by rfl), uploadSends_no_merge]
  rfl

/-- Appending the merge request records exactly its key list. -/
theorem mergeKeys_of_base_merge (files : List SelFile)
    (ds : List PresignedUploadDetails) (ns ks : List String) :
    ((NetOp.grantRequest ns ::
        (uploadSends files ds ++ [NetOp.mergeRequest ks])).filterMap
      mergePick).head? = some ks := by
  rw [List.filterMap_cons_none (by rfl), List.filterMap_append,
    uploadSends_no_merge]
  rfl

/-- Branch-by-branch computation of the merge-request key list of a run:
a merge request is issued exactly when the length check, the grant phase,
the upload phase and the ordered-key construction all pass, and then it
carries `orderedKeys`. -/
theorem mergeKeysOf_handleMergeClick (files : List SelFile)
    (grantsResp : Except String (List PresignedUploadDetails))
    (beh : String → UploadOutcome) (co : List String)
    (mergeResp : Except String MergeTriggerResult) :
    mergeKeysOf (handleMergeClick files grantsResp beh co mergeResp) =
      if files.length < 2 then none
      else
        match grantsResp with
        | .error _ => none
        | .ok ds =>
          match uploadPhase files ds beh co with
          | .error _ => none
          | .ok _ =>
            match orderedKeys files ds with
            | .error _ => none
            | .ok ks => some ks := by
  unfold handleMergeClick
  by_cases hlen : files.length < 2
  · rw [if_pos hlen, if_pos hlen]
    rfl
  · rw [if_neg hlen, if_neg hlen]
    cases grantsResp with
    | error e => rfl
    | ok ds =>
      dsimp only
      cases uploadPhase files ds beh co with
      | error m => exact mergeKeys_of_base files ds _
      | ok u =>
        cases u
        dsimp only
        cases orderedKeys files ds with
        | error m => exact mergeKeys_of_base files ds _
        | ok ks =>
          dsimp only
          cases mergeResp with
          | error m => exact mergeKeys_of_base_merge files ds _ ks
          | ok r => exact mergeKeys_of_base_merge files ds _ ks

/-- C1: the ordered key list passed to the merge trigger is independent of
the order in which the individual uploads completed (and of the merge
response), and whenever a merge request is issued its keys are exactly the
batch in its current display order, each mapped to its grant-provided
storage key (`Forall₂` pairs the i-th batch file with the i-th key). -/
theorem c1_merge_trigger_display_order (files : List SelFile)
    (grantsResp : Except String (List PresignedUploadDetails))
    (beh : String → UploadOutcome) (co co' : List String)
    (mergeResp mergeResp' : Except String MergeTriggerResult) :
    mergeKeysOf (handleMergeClick files grantsResp beh co mergeResp) =
      mergeKeysOf (handleMergeClick files grantsResp beh co' mergeResp') ∧
    (∀ ds ks, grantsResp = .ok ds →
      mergeKeysOf (handleMergeClick files grantsResp beh co mergeResp) =
        some ks →
      List.Forall₂ (fun (f : SelFile) (k : String) =>
        keyFor ds f.name = some k) files ks) := by
  constructor
  · rw [mergeKeysOf_handleMergeClick, mergeKeysOf_handleMergeClick]
    by_cases hlen : files.length < 2
    · rw [if_pos hlen, if_pos hlen]
    · rw [if_neg hlen, if_neg hlen]
      cases grantsResp with
      | error e => rfl
      | ok ds =>
        dsimp only
        cases hu : uploadPhase files ds beh co with
        | error m =>
          cases hu' : uploadPhase files ds beh co' with
          | error m' => rfl
          | ok u =>
            cases u
            have := (uploadPhase_ok_co_independent files ds beh co co').mpr hu'
            rw [hu] at this
            cases this
        | ok u =>
          cases u
          have hu' : uploadPhase files ds beh co' = .ok () :=
            (uploadPhase_ok_co_independent files ds beh co co').mp hu
          rw [hu']
  · intro ds ks hds hks
    subst hds
    rw [mergeKeysOf_handleMergeClick] at hks
    by_cases hlen : files.length < 2
    · rw [if_pos hlen] at hks; cases hks
    · rw [if_neg hlen] at hks
      dsimp only at hks
      cases hu : uploadPhase files ds beh co with
      | error m => rw [hu] at hks; cases hks
      | ok u =>
        cases u
        rw [hu] at hks
        dsimp only at hks
        cases horder : orderedKeys files ds with
        | error m => rw [horder] at hks; cases hks
        | ok ks' =>
          rw [horder] at hks
          dsimp only at hks
          cases hks
          exact orderedKeys_forall₂ files ds _ horder

/-- C1 witness: a two-file batch with matched grants and two different
completion orders, at which the theorem yields the same issued key list
and pairs each file with its own grant key. -/
theorem c1_merge_trigger_display_order_witness :
    mergeKeysOf (handleMergeClick
        [⟨"a.pdf", 1, "application/pdf"⟩, ⟨"b.pdf", 2, "application/pdf"⟩]
        (.ok [⟨"a.pdf", ⟨"https://s3", [("key", "up/a.pdf")]⟩⟩,
              ⟨"b.pdf", ⟨"https://s3", [("key", "up/b.pdf")]⟩⟩])
        (fun _ => .loaded 204 "No Content") ["b.pdf", "a.pdf"]
        (.ok ⟨"ok", "https://dl"⟩)) =
      mergeKeysOf (handleMergeClick
        [⟨"a.pdf", 1, "application/pdf"⟩, ⟨"b.pdf", 2, "application/pdf"⟩]
        (.ok [⟨"a.pdf", ⟨"https://s3", [("key", "up/a.pdf")]⟩⟩,
              ⟨"b.pdf", ⟨"https://s3", [("key", "up/b.pdf")]⟩⟩])
        (fun _ => .loaded 204 "No Content") []
        (.error "merge rejected")) ∧
    List.Forall₂ (fun (f : SelFile) (k : String) =>
        keyFor [⟨"a.pdf", ⟨"https://s3", [("key", "up/a.pdf")]⟩⟩,
                ⟨"b.pdf", ⟨"https://s3", [("key", "up/b.pdf")]⟩⟩] f.name =
          some k)
      [⟨"a.pdf", 1, "application/pdf"⟩, ⟨"b.pdf", 2, "application/pdf"⟩]
      ["up/a.pdf", "up/b.pdf"] :=
  ⟨(c1_merge_trigger_display_order
      [⟨"a.pdf", 1, "application/pdf"⟩, ⟨"b.pdf", 2, "application/pdf"⟩]
      (.ok [⟨"a.pdf", ⟨"https://s3", [("key", "up/a.pdf")]⟩⟩,
            ⟨"b.pdf", ⟨"https://s3", [("key", "up/b.pdf")]⟩⟩])
      (fun _ => .loaded 204 "No Content") ["b.pdf", "a.pdf"] []
      (.ok ⟨"ok", "https://dl"⟩) (.error "merge rejected")).1,
   (c1_merge_trigger_display_order
      [⟨"a.pdf", 1, "application/pdf"⟩, ⟨"b.pdf", 2, "application/pdf"⟩]
      (.ok [⟨"a.pdf", ⟨"https://s3", [("key", "up/a.pdf")]⟩⟩,
            ⟨"b.pdf", ⟨"https://s3", [("key", "up/b.pdf")]⟩⟩])
      (fun _ => .loaded 204 "No Content") ["b.pdf", "a.pdf"] []
      (.ok ⟨"ok", "https://dl"⟩) (.error "merge rejected")).2
     _ ["up/a.pdf", "up/b.pdf"] rfl rfl⟩

/-- C3 counterexample: a two-file batch whose grant list covers only the
first file.  The upload phase itself resolves successfully — it iterates
the grants and looks files up, not the other way round — even though the
grant list omits `b.pdf`; the claim that the upload phase fails in this
situation is false. -/
theorem c3_counterexample :
    (∃ f ∈ ([⟨"a.pdf", 1, "application/pdf"⟩,
             ⟨"b.pdf", 1, "application/pdf"⟩] : List SelFile),
      ∀ d ∈ ([⟨"a.pdf", ⟨"https://s3", [("key", "up/a.pdf")]⟩⟩] :
          List PresignedUploadDetails),
        d.originalFileName ≠ f.name) ∧
    uploadPhase
      [⟨"a.pdf", 1, "application/pdf"⟩, ⟨"b.pdf", 1, "application/pdf"⟩]
      [⟨"a.pdf", ⟨"https://s3", [("key", "up/a.pdf")]⟩⟩]
      (fun _ => .loaded 204 "No Content") [] = .ok () :=
  ⟨⟨⟨"b.pdf", 1, "application/pdf"⟩, by decide, by decide⟩, rfl⟩

/-- C3 (amended): the upload phase looks up, for every grant, the matching
batch file by name and fails if that file is absent; a batch file omitted
from the grant list does not fail the upload phase — instead the ordered
key construction of the merge step fails, and no merge request is ever
issued. -/
theorem c3_amended_grant_direction (files : List SelFile)
    (ds : List PresignedUploadDetails) (beh : String → UploadOutcome)
    (co : List String) (mergeResp : Except String MergeTriggerResult) :
    ((∃ d ∈ ds, ∀ f ∈ files, f.name ≠ d.originalFileName) →
      ∃ m, uploadPhase files ds beh co = .error m) ∧
    ((∃ f ∈ files, ∀ d ∈ ds, d.originalFileName ≠ f.name) →
      (∃ m, orderedKeys files ds = .error m) ∧
      mergeKeysOf (handleMergeClick files (.ok ds) beh co mergeResp) =
        none) := by
  constructor
  · rintro ⟨d, hdmem, hnof⟩
    have hsome : (ds.find? (fun d =>
        !files.any (fun f => f.name = d.originalFileName))).isSome := by
      rw [List.find?_isSome]
      refine ⟨d, hdmem, ?_⟩
      rw [Bool.not_eq_true']
      rw [List.any_eq_false]
      intro f hf
      simp only [decide_eq_true_eq]
      exact hnof f hf
    obtain ⟨d', hd'⟩ := Option.isSome_iff_exists.mp hsome
    have herr : uploadPhase files ds beh co =
        .error ("Não foi possível encontrar os dados do arquivo para " ++
          d'.originalFileName ++ ".") := by
      unfold uploadPhase missingFileErr
      rw [hd']
      rfl
    exact ⟨_, herr⟩
  · rintro ⟨f, hfmem, hnod⟩
    have hkey : keyFor ds f.name = none := by
      unfold keyFor
      rw [List.find?_eq_none.mpr]
      intro d hd
      simp only [decide_eq_true_eq]
      exact hnod d hd
    have horderr := orderedKeys_error_of_missing files ds ⟨f, hfmem, hkey⟩
    refine ⟨horderr, ?_⟩
    rw [mergeKeysOf_handleMergeClick]
    by_cases hlen : files.length < 2
    · rw [if_pos hlen]
    · rw [if_neg hlen]
      dsimp only
      cases uploadPhase files ds beh co with
      | error m => rfl
      | ok u =>
        cases u
        dsimp only
        obtain ⟨m, hm⟩ := horderr
        rw [hm]

/-- C3 witness: the amended theorem applied where the single grant names a
file outside the batch (so the upload phase fails) and the batch contains
a file with no grant (so the key construction fails and no merge request
is issued). -/
theorem c3_amended_grant_direction_witness :
    (∃ m, uploadPhase
        [⟨"a.pdf", 1, "application/pdf"⟩, ⟨"b.pdf", 1, "application/pdf"⟩]
        [⟨"c.pdf", ⟨"https://s3", [("key", "up/c.pdf")]⟩⟩]
        (fun _ => .loaded 204 "No Content") [] = .error m) ∧
    (∃ m, orderedKeys
        [⟨"a.pdf", 1, "application/pdf"⟩, ⟨"b.pdf", 1, "application/pdf"⟩]
        [⟨"c.pdf", ⟨"https://s3", [("key", "up/c.pdf")]⟩⟩] = .error m) ∧
    mergeKeysOf (handleMergeClick
        [⟨"a.pdf", 1, "application/pdf"⟩, ⟨"b.pdf", 1, "application/pdf"⟩]
        (.ok [⟨"c.pdf", ⟨"https://s3", [("key", "up/c.pdf")]⟩⟩])
        (fun _ => .loaded 204 "No Content") [] (.error "unused")) = none :=
  ⟨(c3_amended_grant_direction
      [⟨"a.pdf", 1, "application/pdf"⟩, ⟨"b.pdf", 1, "application/pdf"⟩]
      [⟨"c.pdf", ⟨"https://s3", [("key", "up/c.pdf")]⟩⟩]
      (fun _ => .loaded 204 "No Content") [] (.error "unused")).1
     ⟨⟨"c.pdf", ⟨"https://s3", [("key", "up/c.pdf")]⟩⟩, by decide, by decide⟩,
   ((c3_amended_grant_direction
      [⟨"a.pdf", 1, "application/pdf"⟩, ⟨"b.pdf", 1, "application/pdf"⟩]
      [⟨"c.pdf", ⟨"https://s3", [("key", "up/c.pdf")]⟩⟩]
      (fun _ => .loaded 204 "No Content") [] (.error "unused")).2
     ⟨⟨"a.pdf", 1, "application/pdf"⟩, by decide, by decide⟩).1,
   ((c3_amended_grant_direction
      [⟨"a.pdf", 1, "application/pdf"⟩, ⟨"b.pdf", 1, "application/pdf"⟩]
      [⟨"c.pdf", ⟨"https://s3", [("key", "up/c.pdf")]⟩⟩]
      (fun _ => .loaded 204 "No Content") [] (.error "unused")).2
     ⟨⟨"a.pdf", 1, "application/pdf"⟩, by decide, by decide⟩).2⟩

/-- When the grant list pairs with the batch name-for-name, the granted
names are exactly the batch names. -/
theorem grantNames_eq_of_match {ds : List PresignedUploadDetails}
    {files : List SelFile}
    (h : List.Forall₂ (fun (d : PresignedUploadDetails) (f : SelFile) =>
      d.originalFileName = f.name) ds files) :
    grantNames ds = files.map SelFile.name := by
  induction h with
  | nil => rfl
  | cons hd _ ih =>
    simp only [grantNames, List.map_cons] at ih ⊢
    rw [hd, ih]

/-- C5: with grants matching the batch name-for-name, if some file's
direct upload completes with a non-2xx status and no upload suffers a
transport error, the whole attempt fails with the upload error naming a
file whose status was non-2xx, the batch is left unchanged, and all three
loading flags end cleared.  (The hypothesis on `catchDescription` states
that none of the produced upload messages contains the phrase the catch
block rewrites into the CORS hint.) -/
theorem c5_upload_failure_aborts (files : List SelFile)
    (ds : List PresignedUploadDetails) (beh : String → UploadOutcome)
    (co : List String) (mergeResp : Except String MergeTriggerResult)
    (hlen : 2 ≤ files.length)
    (hmatch : List.Forall₂ (fun (d : PresignedUploadDetails) (f : SelFile) =>
      d.originalFileName = f.name) ds files)
    (hfail : ∃ f ∈ files, ∃ s st, beh f.name = .loaded s st ∧
      ¬ (200 ≤ s ∧ s < 300))
    (hnoNet : ∀ f ∈ files, beh f.name ≠ .netError)
    (hmsg : ∀ n ∈ files.map SelFile.name, ∀ m,
      uploadFailMsg n (beh n) = some m → catchDescription m = m) :
    ∃ g ∈ files, ∃ s st, beh g.name = .loaded s st ∧ ¬ (200 ≤ s ∧ s < 300) ∧
      (handleMergeClick files (.ok ds) beh co mergeResp).outcome =
        .failure ("Falha no envio de " ++ g.name ++ ": " ++ st) ∧
      (handleMergeClick files (.ok ds) beh co mergeResp).finalFiles = files ∧
      (handleMergeClick files (.ok ds) beh co mergeResp).isPreparing = false ∧
      (handleMergeClick files (.ok ds) beh co mergeResp).isUploading = false ∧
      (handleMergeClick files (.ok ds) beh co mergeResp).isMerging = false := by
  have hnames : grantNames ds = files.map SelFile.name :=
    grantNames_eq_of_match hmatch
  have hmiss : missingFileErr files ds = none := by
    have hfind : (ds.find? fun d =>
        !files.any (fun f => f.name = d.originalFileName)) = none := by
      rw [List.find?_eq_none]
      intro d hd
      have hdn : d.originalFileName ∈ grantNames ds :=
        List.mem_map_of_mem _ hd
      rw [hnames] at hdn
      obtain ⟨f, hf, hfn⟩ := List.mem_map.mp hdn
      simp only [Bool.not_eq_true', List.any_eq_false, decide_eq_true_eq,
        not_forall]
      exact ⟨f, hf, not_not_intro hfn⟩
    unfold missingFileErr
    rw [hfind]
    rfl
  have hne : firstUploadErr ds beh co ≠ none := by
    intro hnone
    have hall := (firstUploadErr_none_iff ds beh co).mp hnone
    obtain ⟨f, hf, s, st, hbeh, h2xx⟩ := hfail
    have hthis := hall f.name (by rw [hnames]; exact List.mem_map_of_mem _ hf)
    unfold uploadFailMsg at hthis
    rw [hbeh] at hthis
    dsimp only at hthis
    rw [if_neg h2xx] at hthis
    cases hthis
  obtain ⟨m, hm⟩ := Option.ne_none_iff_exists'.mp hne
  have hmem : m ∈ (completionSeq ds co).filterMap
      (fun n => uploadFailMsg n (beh n)) := by
    unfold firstUploadErr at hm
    exact List.mem_of_mem_head? (Option.mem_def.mpr hm)
  obtain ⟨n, hnseq, hnmsg⟩ := List.mem_filterMap.mp hmem
  have hngrant : n ∈ grantNames ds := (mem_completionSeq ds co n).mp hnseq
  rw [hnames] at hngrant
  obtain ⟨g, hg, rfl⟩ := List.mem_map.mp hngrant
  cases hbeh : beh g.name with
  | netError => exact absurd hbeh (hnoNet g hg)
  | loaded s st =>
    unfold uploadFailMsg at hnmsg
    rw [hbeh] at hnmsg
    dsimp only at hnmsg
    by_cases h2 : 200 ≤ s ∧ s < 300
    · rw [if_pos h2] at hnmsg
      cases hnmsg
    · rw [if_neg h2] at hnmsg
      have hm_eq : m = "Falha no envio de " ++ g.name ++ ": " ++ st :=
        (Option.some.inj hnmsg).symm
      have hfm : uploadFailMsg g.name (beh g.name) = some m := by
        unfold uploadFailMsg
        rw [hbeh]
        dsimp only
        rw [if_neg h2]
        exact hnmsg
      have hcd : catchDescription m = m :=
        hmsg g.name (List.mem_map_of_mem _ hg) m hfm
      have hup : uploadPhase files ds beh co = .error m := by
        unfold uploadPhase
        rw [hmiss]
        dsimp only
        rw [hm]
      have hrun : handleMergeClick files (.ok ds) beh co mergeResp =
          { outcome := .failure (catchDescription m)
            netOps := NetOp.grantRequest (files.map SelFile.name) ::
              uploadSends files ds
            finalFiles := files
            isPreparing := false, isUploading := false, isMerging := false
            progressAtUploadStart := some [] } := by
        unfold handleMergeClick
        rw [if_neg (by omega)]
        dsimp only
        rw [hup]
      refine ⟨g, hg, s, st, hbeh, h2, ?_, ?_, ?_, ?_, ?_⟩ <;>
        rw [hrun]
      rw [hcd, hm_eq]

/-- Concrete inputs for the C5 witness: a two-file batch, matched grants,
and an environment in which `a.pdf` uploads with status 500 and `b.pdf`
with status 204. -/
def c5File1 : SelFile := ⟨"a.pdf", 1, "application/pdf"⟩

def c5File2 : SelFile := ⟨"b.pdf", 2, "application/pdf"⟩

def c5Grant1 : PresignedUploadDetails :=
  ⟨"a.pdf", ⟨"https://s3", [("key", "up/a.pdf")]⟩⟩

def c5Grant2 : PresignedUploadDetails :=
  ⟨"b.pdf", ⟨"https://s3", [("key", "up/b.pdf")]⟩⟩

def c5Beh : String → UploadOutcome := fun n =>
  if n = "a.pdf" then .loaded 500 "Internal Server Error"
  else .loaded 204 "No Content"

/-- C5 witness: the theorem at the concrete inputs above. -/
theorem c5_upload_failure_aborts_witness :
    ∃ g ∈ [c5File1, c5File2], ∃ s st,
      c5Beh g.name = .loaded s st ∧ ¬ (200 ≤ s ∧ s < 300) ∧
      (handleMergeClick [c5File1, c5File2] (.ok [c5Grant1, c5Grant2]) c5Beh []
          (.error "unused")).outcome =
        .failure ("Falha no envio de " ++ g.name ++ ": " ++ st) ∧
      (handleMergeClick [c5File1, c5File2] (.ok [c5Grant1, c5Grant2]) c5Beh []
          (.error "unused")).finalFiles = [c5File1, c5File2] ∧
      (handleMergeClick [c5File1, c5File2] (.ok [c5Grant1, c5Grant2]) c5Beh []
          (.error "unused")).isPreparing = false ∧
      (handleMergeClick [c5File1, c5File2] (.ok [c5Grant1, c5Grant2]) c5Beh []
          (.error "unused")).isUploading = false ∧
      (handleMergeClick [c5File1, c5File2] (.ok [c5Grant1, c5Grant2]) c5Beh []
          (.error "unused")).isMerging = false :=
  c5_upload_failure_aborts [c5File1, c5File2] [c5Grant1, c5Grant2] c5Beh []
    (.error "unused") (by decide)
    (List.Forall₂.cons rfl (List.Forall₂.cons rfl List.Forall₂.nil))
    ⟨c5File1, by decide, 500, "Internal Server Error", by decide, by decide⟩
    (by decide)
    (by
      intro n hn m hm
      simp only [List.map_cons, List.map_nil, List.mem_cons,
        List.not_mem_nil, or_false] at hn
      rcases hn with rfl | rfl
      · rw [show c5Beh c5File1.name =
            UploadOutcome.loaded 500 "Internal Server Error" from rfl] at hm
        rw [show uploadFailMsg c5File1.name
            (UploadOutcome.loaded 500 "Internal Server Error") =
            some "Falha no envio de a.pdf: Internal Server Error" from
          rfl] at hm
        cases hm
        decide
      · rw [show uploadFailMsg c5File2.name (c5Beh c5File2.name) = none from
          rfl] at hm
        cases hm)

/-- C8: for every merge attempt that enters the upload phase, the progress
map is reset to empty at that instant; and the write sequence one upload
produces for its file — when the browser supplies length-computable events
with a fixed positive total and nondecreasing loaded bytes, as progress
events are — is nondecreasing, stays within 0 to 100, and on a successful
(2xx) upload its last write is exactly 100. -/
theorem c8_progress_reset_and_monotone (files : List SelFile)
    (ds : List PresignedUploadDetails) (beh : String → UploadOutcome)
    (co : List String) (mergeResp : Except String MergeTriggerResult)
    (events : List ProgressEvent) (t : ℚ) (o : UploadOutcome)
    (hlen : 2 ≤ files.length) (ht : 0 < t)
    (htot : ∀ e ∈ events, e.total = t)
    (hload : ∀ e ∈ events, 0 ≤ e.loaded ∧ e.loaded ≤ t)
    (hmono : events.Pairwise (fun a b => a.loaded ≤ b.loaded)) :
    (handleMergeClick files (.ok ds) beh co
        mergeResp).progressAtUploadStart = some [] ∧
    (∀ s st, o = .loaded s st → 200 ≤ s → s < 300 →
      (fileWrites events o).getLast? = some 100) ∧
    (fileWrites events o).Pairwise (· ≤ ·) ∧
    (∀ x ∈ fileWrites events o, 0 ≤ x ∧ x ≤ 100) := by
  have hps : ((events.filter (fun e => e.lengthComputable)).map
      percentOf).Pairwise (· ≤ ·) := by
    rw [List.pairwise_map]
    refine List.Pairwise.imp_of_mem ?_ (hmono.filter _)
    intro a b ha hb hab
    have hta := htot a (List.mem_filter.mp ha).1
    have htb := htot b (List.mem_filter.mp hb).1
    unfold percentOf
    rw [hta, htb]
    exact mul_le_mul_of_nonneg_right
      ((div_le_div_iff_of_pos_right ht).mpr hab) (by norm_num)
  have hbound : ∀ x ∈ (events.filter (fun e => e.lengthComputable)).map
      percentOf, 0 ≤ x ∧ x ≤ 100 := by
    intro x hx
    rw [List.mem_map] at hx
    obtain ⟨e, he, rfl⟩ := hx
    have hte := htot e (List.mem_filter.mp he).1
    have hle := hload e (List.mem_filter.mp he).1
    unfold percentOf
    rw [hte]
    refine ⟨mul_nonneg (div_nonneg hle.1 ht.le) (by norm_num), ?_⟩
    calc e.loaded / t * 100 ≤ 1 * 100 :=
          mul_le_mul_of_nonneg_right ((div_le_one ht).mpr hle.2) (by norm_num)
      _ = 100 := one_mul _
  have hfw : fileWrites events o =
        (events.filter (fun e => e.lengthComputable)).map percentOf ∨
      fileWrites events o =
        (events.filter (fun e => e.lengthComputable)).map percentOf ++
          [100] := by
    unfold fileWrites
    cases o with
    | netError => exact Or.inl rfl
    | loaded s st =>
      dsimp only
      by_cases h : 200 ≤ s ∧ s < 300
      · rw [if_pos h]; exact Or.inr rfl
      · rw [if_neg h]; exact Or.inl rfl
  refine ⟨?_, ?_, ?_, ?_⟩
  · unfold handleMergeClick
    rw [if_neg (by omega)]
    dsimp only
    cases uploadPhase files ds beh co with
    | error m => rfl
    | ok u =>
      cases u
      dsimp only
      cases orderedKeys files ds with
      | error m => rfl
      | ok ks =>
        dsimp only
        cases mergeResp with
        | error m => rfl
        | ok r => rfl
  · intro s st ho h1 h2
    subst ho
    unfold fileWrites
    dsimp only
    rw [if_pos ⟨h1, h2⟩]
    exact List.getLast?_concat _
  · rcases hfw with h | h <;> rw [h]
    · exact hps
    · refine List.pairwise_append.mpr ⟨hps, List.pairwise_singleton _ _, ?_⟩
      intro a ha b hb
      rw [List.mem_singleton] at hb
      subst hb
      exact (hbound a ha).2
  · rcases hfw with h | h <;> rw [h]
    · exact hbound
    · intro x hx
      rcases List.mem_append.mp hx with hx | hx
      · exact hbound x hx
      · rw [List.mem_singleton] at hx
        subst hx
        exact ⟨by norm_num, le_refl _⟩

/-- C8 witness: the theorem at a concrete two-event upload with total 2
finishing with status 201. -/
theorem c8_progress_reset_and_monotone_witness :
    (handleMergeClick
        [⟨"a.pdf", 1, "application/pdf"⟩, ⟨"b.pdf", 2, "application/pdf"⟩]
        (.ok []) (fun _ => .loaded 201 "Created") []
        (.error "unused")).progressAtUploadStart = some [] ∧
    (∀ s st, (UploadOutcome.loaded 201 "Created") = .loaded s st →
      200 ≤ s → s < 300 →
      (fileWrites [⟨true, 1, 2⟩, ⟨true, 2, 2⟩]
        (.loaded 201 "Created")).getLast? = some 100) ∧
    (fileWrites [⟨true, 1, 2⟩, ⟨true, 2, 2⟩]
      (.loaded 201 "Created")).Pairwise (· ≤ ·) ∧
    (∀ x ∈ fileWrites [⟨true, 1, 2⟩, ⟨true, 2, 2⟩]
      (.loaded 201 "Created"), 0 ≤ x ∧ x ≤ 100) :=
  c8_progress_reset_and_monotone
    [⟨"a.pdf", 1, "application/pdf"⟩, ⟨"b.pdf", 2, "application/pdf"⟩]
    [] (fun _ => .loaded 201 "Created") [] (.error "unused")
    [⟨true, 1, 2⟩, ⟨true, 2, 2⟩] 2 (.loaded 201 "Created")
    (by decide) (by norm_num) (by decide) (by decide) (by decide)

end AtenaDocs
